import Mathlib

/-!
Verification of the incremental-synchronization engine specification for the
claude-context repository, against a shallow embedding of its code.

The repository sources in scope are the Azure AI Search vector-database
adapter and the Context orchestration class
(packages/core/src/vectordb/azureaisearch-vectordb.ts).  The synchronization
core itself (FileSynchronizer, packages/core/src/sync/synchronizer.ts) is
referenced by the Context class but its source is not part of the corpus, so
the Diff Engine, Snapshot commit and Reconciliation Pipeline are modelled
from the specification text and clearly marked as such.
-/

namespace ClaudeContext

/-! ## Fingerprint maps and the Diff Engine (modelled from the spec) -/

/-- Modelled from the spec: a FileFingerprint is a content hash (strong hash
over the file bytes), the byte size, and the last-modified timestamp.  The
FileSynchronizer source (packages/core/src/sync/synchronizer.ts) is missing
from the corpus; this follows section 3 of the spec. -/
structure FileFingerprint where
  hash : String
  size : Nat
  mtime : Int
deriving DecidableEq, Repr

/-- Modelled from the spec: two fingerprints are equal iff hash and size
match; the timestamp is only an optimization and never enters the
comparison. -/
def fingerprintEq (a b : FileFingerprint) : Bool :=
  a.hash == b.hash && a.size == b.size

/-- Association-list lookup used for fingerprint maps (relative path to
fingerprint). -/
def alookup {α : Type} : List (String × α) → String → Option α
  | [], _ => none
  | kv :: rest, q => if kv.1 = q then some kv.2 else alookup rest q

/-- Keys of a fingerprint map. -/
def mapKeys {α : Type} (m : List (String × α)) : List String :=
  m.map Prod.fst

/-- A well-formed map binds each path at most once. -/
def keysNodup {α : Type} (m : List (String × α)) : Prop :=
  (m.map Prod.fst).Nodup

instance {α : Type} (m : List (String × α)) : Decidable (keysNodup m) := by
  unfold keysNodup; infer_instance

/-- Modelled from the spec: a SyncPlan is the transient result of the Diff
Engine, three sets (here lists) of paths. -/
structure SyncPlan where
  added : List String
  modified : List String
  removed : List String
deriving DecidableEq, Repr

/-- Modelled from the spec: the Diff Engine is a pure function of the prior
Snapshot fingerprint map and the freshly scanned fingerprint map.  A path
only in the fresh scan is added; a path in both with unequal fingerprints is
modified; a path only in the prior snapshot is removed; a path in both with
equal fingerprints is excluded from the plan. -/
def diffFingerprintMaps (prior fresh : List (String × FileFingerprint)) : SyncPlan :=
  { added := (fresh.filter (fun pf => (alookup prior pf.1).isNone)).map Prod.fst
    modified := (fresh.filter (fun pf =>
      match alookup prior pf.1 with
      | some g => !fingerprintEq g pf.2
      | none => false)).map Prod.fst
    removed := (prior.filter (fun pf => (alookup fresh pf.1).isNone)).map Prod.fst }

/-- Modelled from the spec: the unchanged paths, excluded from the plan. -/
def diffUnchanged (prior fresh : List (String × FileFingerprint)) : List String :=
  (fresh.filter (fun pf =>
    match alookup prior pf.1 with
    | some g => fingerprintEq g pf.2
    | none => false)).map Prod.fst

theorem fingerprintEq_iff (a b : FileFingerprint) :
    fingerprintEq a b = true ↔ a.hash = b.hash ∧ a.size = b.size := by
  simp [fingerprintEq]

theorem fingerprintEq_refl (a : FileFingerprint) : fingerprintEq a a = true := by
  simp [fingerprintEq]

theorem alookup_eq_some_of_mem {α : Type} {m : List (String × α)} {p : String} {v : α}
    (hnd : keysNodup m) (hm : (p, v) ∈ m) : alookup m p = some v := by
  induction m with
  | nil => cases hm
  | cons kv rest ih =>
    simp only [keysNodup, List.map_cons, List.nodup_cons] at hnd
    rcases List.mem_cons.mp hm with h | h
    · subst h; simp [alookup]
    · have hne : kv.1 ≠ p := by
        intro he
        exact hnd.1 (he ▸ (List.mem_map.mpr ⟨(p, v), h, rfl⟩))
      simp only [alookup, if_neg hne]
      exact ih hnd.2 h

theorem mem_of_alookup_eq_some {α : Type} {m : List (String × α)} {p : String} {v : α}
    (h : alookup m p = some v) : (p, v) ∈ m := by
  induction m with
  | nil => simp [alookup] at h
  | cons kv rest ih =>
    by_cases he : kv.1 = p
    · simp only [alookup, if_pos he] at h
      cases h
      have hkv : (p, kv.2) = kv := by cases kv; cases he; rfl
      rw [hkv]
      exact List.mem_cons_self _ _
    · simp only [alookup, if_neg he] at h
      exact List.mem_cons_of_mem _ (ih h)

theorem alookup_isSome_of_mem_keys {α : Type} {m : List (String × α)} {p : String}
    (h : p ∈ mapKeys m) : (alookup m p).isSome := by
  rcases List.mem_map.mp h with ⟨kv, hkv, hfst⟩
  induction m with
  | nil => cases hkv
  | cons kv0 rest ih =>
    by_cases he : kv0.1 = p
    · simp [alookup, if_pos he]
    · rcases List.mem_cons.mp hkv with h0 | h0
      · subst h0; exact absurd hfst he
      · simp only [alookup, if_neg he]
        exact ih (List.mem_map.mpr ⟨kv, h0, hfst⟩) h0

theorem mem_keys_of_alookup_eq_some {α : Type} {m : List (String × α)} {p : String} {v : α}
    (h : alookup m p = some v) : p ∈ mapKeys m :=
  List.mem_map.mpr ⟨(p, v), mem_of_alookup_eq_some h, rfl⟩

theorem alookup_eq_none_of_not_mem_keys {α : Type} {m : List (String × α)} {p : String}
    (h : p ∉ mapKeys m) : alookup m p = none := by
  cases hv : alookup m p with
  | none => rfl
  | some v => exact absurd (mem_keys_of_alookup_eq_some hv) h

/-- Membership in the mapped filter of an association list. -/
theorem mem_map_fst_filter {α : Type} (P : String × α → Bool)
    (m : List (String × α)) (p : String) :
    p ∈ (m.filter P).map Prod.fst ↔ ∃ v, (p, v) ∈ m ∧ P (p, v) = true := by
  constructor
  · intro h
    rcases List.mem_map.mp h with ⟨kv, hkv, hfst⟩
    rcases List.mem_filter.mp hkv with ⟨hm, hP⟩
    exact ⟨kv.2, by cases kv; cases hfst; exact hm, by cases kv; cases hfst; exact hP⟩
  · rintro ⟨v, hm, hP⟩
    exact List.mem_map.mpr ⟨(p, v), List.mem_filter.mpr ⟨hm, hP⟩, rfl⟩

theorem mem_added_iff {prior fresh : List (String × FileFingerprint)}
    (hf : keysNodup fresh) (p : String) :
    p ∈ (diffFingerprintMaps prior fresh).added ↔
      (∃ g, alookup fresh p = some g) ∧ alookup prior p = none := by
  simp only [diffFingerprintMaps]
  rw [mem_map_fst_filter]
  constructor
  · rintro ⟨v, hm, hP⟩
    refine ⟨⟨v, alookup_eq_some_of_mem hf hm⟩, ?_⟩
    simpa [Option.isNone_iff_eq_none] using hP
  · rintro ⟨⟨g, hg⟩, hp⟩
    exact ⟨g, mem_of_alookup_eq_some hg, by simp [hp]⟩

theorem mem_modified_iff {prior fresh : List (String × FileFingerprint)}
    (hf : keysNodup fresh) (p : String) :
    p ∈ (diffFingerprintMaps prior fresh).modified ↔
      ∃ f g, alookup prior p = some f ∧ alookup fresh p = some g ∧
        fingerprintEq f g = false := by
  simp only [diffFingerprintMaps]
  rw [mem_map_fst_filter]
  constructor
  · rintro ⟨v, hm, hP⟩
    cases hp : alookup prior p with
    | none => rw [hp] at hP; simp at hP
    | some f =>
      refine ⟨f, v, rfl, alookup_eq_some_of_mem hf hm, ?_⟩
      rw [hp] at hP
      simpa using hP
  · rintro ⟨f, g, hpf, hfg, hne⟩
    exact ⟨g, mem_of_alookup_eq_some hfg, by simp [hpf, hne]⟩

theorem mem_removed_iff {prior fresh : List (String × FileFingerprint)}
    (hp : keysNodup prior) (p : String) :
    p ∈ (diffFingerprintMaps prior fresh).removed ↔
      (∃ f, alookup prior p = some f) ∧ alookup fresh p = none := by
  simp only [diffFingerprintMaps]
  rw [mem_map_fst_filter]
  constructor
  · rintro ⟨v, hm, hP⟩
    refine ⟨⟨v, alookup_eq_some_of_mem hp hm⟩, ?_⟩
    simpa [Option.isNone_iff_eq_none] using hP
  · rintro ⟨⟨f, hf⟩, hnone⟩
    exact ⟨f, mem_of_alookup_eq_some hf, by simp [hnone]⟩

theorem mem_unchanged_iff {prior fresh : List (String × FileFingerprint)}
    (hf : keysNodup fresh) (p : String) :
    p ∈ diffUnchanged prior fresh ↔
      ∃ f g, alookup prior p = some f ∧ alookup fresh p = some g ∧
        fingerprintEq f g = true := by
  simp only [diffUnchanged]
  rw [mem_map_fst_filter]
  constructor
  · rintro ⟨v, hm, hP⟩
    cases hp : alookup prior p with
    | none => rw [hp] at hP; simp at hP
    | some f =>
      refine ⟨f, v, rfl, alookup_eq_some_of_mem hf hm, ?_⟩
      rw [hp] at hP
      simpa using hP
  · rintro ⟨f, g, hpf, hfg, heq⟩
    exact ⟨g, mem_of_alookup_eq_some hfg, by simp [hpf, heq]⟩

/-- C1: the Diff Engine is a pure function of the two fingerprint maps; for
every pair of well-formed maps and every path, a path present only in the
fresh scan is classified added, a path present in both maps with unequal
fingerprints is classified modified, a path present in both with equal
fingerprints appears in none of the three sets of the plan, and a path
present only in the prior snapshot is classified removed. -/
theorem diff_engine_classification
    (prior fresh : List (String × FileFingerprint))
    (hp : keysNodup prior) (hf : keysNodup fresh) (p : String) :
    (∀ g, alookup fresh p = some g → alookup prior p = none →
      p ∈ (diffFingerprintMaps prior fresh).added) ∧
    (∀ f g, alookup prior p = some f → alookup fresh p = some g →
      fingerprintEq f g = false → p ∈ (diffFingerprintMaps prior fresh).modified) ∧
    (∀ f g, alookup prior p = some f → alookup fresh p = some g →
      fingerprintEq f g = true →
      p ∉ (diffFingerprintMaps prior fresh).added ∧
      p ∉ (diffFingerprintMaps prior fresh).modified ∧
      p ∉ (diffFingerprintMaps prior fresh).removed) ∧
    (∀ f, alookup prior p = some f → alookup fresh p = none →
      p ∈ (diffFingerprintMaps prior fresh).removed) := by
  refine ⟨?_, ?_, ?_, ?_⟩
  · intro g hg hnone
    exact (mem_added_iff hf p).mpr ⟨⟨g, hg⟩, hnone⟩
  · intro f g hpf hfg hne
    exact (mem_modified_iff hf p).mpr ⟨f, g, hpf, hfg, hne⟩
  · intro f g hpf hfg heq
    refine ⟨?_, ?_, ?_⟩
    · intro h
      rcases (mem_added_iff hf p).mp h with ⟨_, hnone⟩
      rw [hpf] at hnone
      cases hnone
    · intro h
      rcases (mem_modified_iff hf p).mp h with ⟨f0, g0, hpf0, hfg0, hne0⟩
      rw [hpf] at hpf0
      rw [hfg] at hfg0
      cases hpf0
      cases hfg0
      rw [heq] at hne0
      cases hne0
    · intro h
      rcases (mem_removed_iff hp p).mp h with ⟨_, hnone⟩
      rw [hfg] at hnone
      cases hnone
  · intro f hpf hnone
    exact (mem_removed_iff hp p).mpr ⟨⟨f, hpf⟩, hnone⟩

/-- Example prior snapshot map used to witness the diff-engine theorems. -/
def priorExample : List (String × FileFingerprint) :=
  [("keep", ⟨"h1", 10, 100⟩), ("mod", ⟨"h2", 5, 50⟩), ("gone", ⟨"h3", 7, 70⟩)]

/-- Example fresh scan map used to witness the diff-engine theorems. -/
def freshExample : List (String × FileFingerprint) :=
  [("keep", ⟨"h1", 10, 999⟩), ("mod", ⟨"h2x", 5, 50⟩), ("new", ⟨"h4", 3, 30⟩)]

/-- C1 witness: the classification theorem applied to concrete maps, with a
path in each class. -/
theorem diff_engine_classification_witness :
    "new" ∈ (diffFingerprintMaps priorExample freshExample).added ∧
    "mod" ∈ (diffFingerprintMaps priorExample freshExample).modified ∧
    ("keep" ∉ (diffFingerprintMaps priorExample freshExample).added ∧
     "keep" ∉ (diffFingerprintMaps priorExample freshExample).modified ∧
     "keep" ∉ (diffFingerprintMaps priorExample freshExample).removed) ∧
    "gone" ∈ (diffFingerprintMaps priorExample freshExample).removed := by
  have h1 := diff_engine_classification priorExample freshExample
    (by decide) (by decide) "new"
  have h2 := diff_engine_classification priorExample freshExample
    (by decide) (by decide) "mod"
  have h3 := diff_engine_classification priorExample freshExample
    (by decide) (by decide) "keep"
  have h4 := diff_engine_classification priorExample freshExample
    (by decide) (by decide) "gone"
  refine ⟨?_, ?_, ?_, ?_⟩
  · exact h1.1 ⟨"h4", 3, 30⟩ (by decide) (by decide)
  · exact h2.2.1 ⟨"h2", 5, 50⟩ ⟨"h2x", 5, 50⟩ (by decide) (by decide) (by decide)
  · exact h3.2.2.1 ⟨"h1", 10, 100⟩ ⟨"h1", 10, 999⟩ (by decide) (by decide) (by decide)
  · exact h4.2.2.2 ⟨"h3", 7, 70⟩ (by decide) (by decide)

/-- C2: fingerprint equality holds iff both the content hash and the byte
size match, and whenever the hashes of the two sides differ the Diff Engine
never classifies the path as unchanged (it lands in modified), no matter how
size and timestamp compare. -/
theorem fingerprint_equality_semantics
    (a b : FileFingerprint)
    (prior fresh : List (String × FileFingerprint))
    (hf : keysNodup fresh) (p : String) (f g : FileFingerprint) :
    (fingerprintEq a b = true ↔ a.hash = b.hash ∧ a.size = b.size) ∧
    (alookup prior p = some f → alookup fresh p = some g → f.hash ≠ g.hash →
      p ∉ diffUnchanged prior fresh ∧
      p ∈ (diffFingerprintMaps prior fresh).modified) := by
  refine ⟨fingerprintEq_iff a b, ?_⟩
  intro hpf hfg hhash
  have hne : fingerprintEq f g = false := by
    cases he : fingerprintEq f g with
    | false => rfl
    | true => exact absurd ((fingerprintEq_iff f g).mp he).1 hhash
  refine ⟨?_, (mem_modified_iff hf p).mpr ⟨f, g, hpf, hfg, hne⟩⟩
  intro h
  rcases (mem_unchanged_iff hf p).mp h with ⟨f0, g0, hpf0, hfg0, heq0⟩
  rw [hpf] at hpf0
  rw [hfg] at hfg0
  cases hpf0
  cases hfg0
  rw [hne] at heq0
  cases heq0

/-- C2 witness: two fingerprints with different hashes but equal size and
equal timestamp; the file is not unchanged and is classified modified. -/
theorem fingerprint_equality_semantics_witness :
    (fingerprintEq ⟨"ha", 5, 50⟩ ⟨"ha", 5, 99⟩ = true ↔
      ("ha" : String) = "ha" ∧ (5 : Nat) = 5) ∧
    "mod" ∉ diffUnchanged priorExample freshExample ∧
    "mod" ∈ (diffFingerprintMaps priorExample freshExample).modified := by
  have h := fingerprint_equality_semantics ⟨"ha", 5, 50⟩ ⟨"ha", 5, 99⟩
    priorExample freshExample (by decide) "mod" ⟨"h2", 5, 50⟩ ⟨"h2x", 5, 50⟩
  exact ⟨h.1, h.2 (by decide) (by decide) (by decide)⟩

/-- C3: the three sets of a SyncPlan are pairwise disjoint; added, modified
and the unchanged paths partition the fresh-scan paths, and removed,
modified and the unchanged paths partition the prior-snapshot paths. -/
theorem sync_plan_invariant
    (prior fresh : List (String × FileFingerprint))
    (hp : keysNodup prior) (hf : keysNodup fresh) (p : String) :
    (p ∈ (diffFingerprintMaps prior fresh).added →
      p ∉ (diffFingerprintMaps prior fresh).modified) ∧
    (p ∈ (diffFingerprintMaps prior fresh).added →
      p ∉ (diffFingerprintMaps prior fresh).removed) ∧
    (p ∈ (diffFingerprintMaps prior fresh).modified →
      p ∉ (diffFingerprintMaps prior fresh).removed) ∧
    (p ∈ mapKeys fresh ↔
      p ∈ (diffFingerprintMaps prior fresh).added ∨
      p ∈ (diffFingerprintMaps prior fresh).modified ∨
      p ∈ diffUnchanged prior fresh) ∧
    (p ∈ mapKeys prior ↔
      p ∈ (diffFingerprintMaps prior fresh).removed ∨
      p ∈ (diffFingerprintMaps prior fresh).modified ∨
      p ∈ diffUnchanged prior fresh) := by
  refine ⟨?_, ?_, ?_, ?_, ?_⟩
  · intro ha hm
    rcases (mem_added_iff hf p).mp ha with ⟨_, hnone⟩
    rcases (mem_modified_iff hf p).mp hm with ⟨f, _, hpf, _, _⟩
    rw [hnone] at hpf
    cases hpf
  · intro ha hr
    rcases (mem_added_iff hf p).mp ha with ⟨_, hnone⟩
    rcases (mem_removed_iff hp p).mp hr with ⟨⟨f, hpf⟩, _⟩
    rw [hnone] at hpf
    cases hpf
  · intro hm hr
    rcases (mem_modified_iff hf p).mp hm with ⟨_, g, _, hfg, _⟩
    rcases (mem_removed_iff hp p).mp hr with ⟨_, hnone⟩
    rw [hnone] at hfg
    cases hfg
  · constructor
    · intro hk
      cases hg : alookup fresh p with
      | none =>
        have := alookup_isSome_of_mem_keys hk
        rw [hg] at this
        cases this
      | some g =>
        cases hpl : alookup prior p with
        | none => exact Or.inl ((mem_added_iff hf p).mpr ⟨⟨g, hg⟩, hpl⟩)
        | some f =>
          cases he : fingerprintEq f g with
          | false =>
            exact Or.inr (Or.inl ((mem_modified_iff hf p).mpr ⟨f, g, hpl, hg, he⟩))
          | true =>
            exact Or.inr (Or.inr ((mem_unchanged_iff hf p).mpr ⟨f, g, hpl, hg, he⟩))
    · intro h
      rcases h with h | h | h
      · rcases (mem_added_iff hf p).mp h with ⟨⟨g, hg⟩, _⟩
        exact mem_keys_of_alookup_eq_some hg
      · rcases (mem_modified_iff hf p).mp h with ⟨_, g, _, hg, _⟩
        exact mem_keys_of_alookup_eq_some hg
      · rcases (mem_unchanged_iff hf p).mp h with ⟨_, g, _, hg, _⟩
        exact mem_keys_of_alookup_eq_some hg
  · constructor
    · intro hk
      cases hpl : alookup prior p with
      | none =>
        have := alookup_isSome_of_mem_keys hk
        rw [hpl] at this
        cases this
      | some f =>
        cases hg : alookup fresh p with
        | none => exact Or.inl ((mem_removed_iff hp p).mpr ⟨⟨f, hpl⟩, hg⟩)
        | some g =>
          cases he : fingerprintEq f g with
          | false =>
            exact Or.inr (Or.inl ((mem_modified_iff hf p).mpr ⟨f, g, hpl, hg, he⟩))
          | true =>
            exact Or.inr (Or.inr ((mem_unchanged_iff hf p).mpr ⟨f, g, hpl, hg, he⟩))
    · intro h
      rcases h with h | h | h
      · rcases (mem_removed_iff hp p).mp h with ⟨⟨f, hpf⟩, _⟩
        exact mem_keys_of_alookup_eq_some hpf
      · rcases (mem_modified_iff hf p).mp h with ⟨f, _, hpf, _, _⟩
        exact mem_keys_of_alookup_eq_some hpf
      · rcases (mem_unchanged_iff hf p).mp h with ⟨f, _, hpf, _, _⟩
        exact mem_keys_of_alookup_eq_some hpf

/-- C3 witness: the plan invariant applied to the concrete example maps. -/
theorem sync_plan_invariant_witness :
    ("new" ∈ (diffFingerprintMaps priorExample freshExample).added →
      "new" ∉ (diffFingerprintMaps priorExample freshExample).modified) ∧
    ("mod" ∈ mapKeys freshExample ↔
      "mod" ∈ (diffFingerprintMaps priorExample freshExample).added ∨
      "mod" ∈ (diffFingerprintMaps priorExample freshExample).modified ∨
      "mod" ∈ diffUnchanged priorExample freshExample) := by
  have h1 := sync_plan_invariant priorExample freshExample (by decide) (by decide) "new"
  have h2 := sync_plan_invariant priorExample freshExample (by decide) (by decide) "mod"
  exact ⟨h1.1, h2.2.2.2.1⟩

/-! ## Snapshot commit and idempotence (modelled from the spec) -/

/-- Modelled from the spec: a full successful sync run commits, per file of
the plan, the new fingerprint into the Snapshot (added and modified files),
deletes the entries of removed files, and keeps the entries of unchanged
files; the FileSynchronizer source is missing from the corpus.  The result
binds exactly the scanned paths: unchanged paths keep their old entry,
every other scanned path gets the scanned fingerprint, and paths absent
from the scan are dropped. -/
def commitEntry (snapshot : List (String × FileFingerprint))
    (p : String) (f : FileFingerprint) : FileFingerprint :=
  match alookup snapshot p with
  | some g => if fingerprintEq g f then g else f
  | none => f

/-- Modelled from the spec: the committed snapshot after a fully successful
run, one entry per scanned path. -/
def commitSync (snapshot scan : List (String × FileFingerprint)) :
    List (String × FileFingerprint) :=
  scan.map (fun pf => (pf.1, commitEntry snapshot pf.1 pf.2))

/-- Modelled from the spec: files whose chunks are inserted by a plan. -/
def insertOperations (plan : SyncPlan) : List String :=
  plan.added ++ plan.modified

/-- Modelled from the spec: files whose old chunks are deleted by a plan. -/
def deleteOperations (plan : SyncPlan) : List String :=
  plan.modified ++ plan.removed

/-- Modelled from the spec: total number of per-file chunk insert and delete
operations a plan triggers against the vector store. -/
def mutationCount (plan : SyncPlan) : Nat :=
  (insertOperations plan).length + (deleteOperations plan).length

theorem alookup_map_entry (t : String → FileFingerprint → FileFingerprint)
    (m : List (String × FileFingerprint)) (p : String) :
    alookup (m.map (fun pf => (pf.1, t pf.1 pf.2))) p
      = (alookup m p).map (t p) := by
  induction m with
  | nil => rfl
  | cons kv rest ih =>
    by_cases he : kv.1 = p
    · subst he; simp [alookup]
    · simp only [List.map_cons, alookup, if_neg he]
      exact ih

theorem empty_plan_of_fields (plan : SyncPlan)
    (h1 : plan.added = []) (h2 : plan.modified = []) (h3 : plan.removed = []) :
    plan = ⟨[], [], []⟩ := by
  cases plan
  simp_all

/-- C4: sync is idempotent.  After a full sync run commits the scanned state
into the snapshot, diffing the committed snapshot against the same scan
yields the empty SyncPlan, hence the second run performs zero chunk insert
or delete operations. -/
theorem sync_idempotent (snapshot scan : List (String × FileFingerprint))
    (h : keysNodup scan) :
    diffFingerprintMaps (commitSync snapshot scan) scan = ⟨[], [], []⟩ ∧
    mutationCount (diffFingerprintMaps (commitSync snapshot scan) scan) = 0 := by
  have hadded : (diffFingerprintMaps (commitSync snapshot scan) scan).added = [] := by
    simp only [diffFingerprintMaps]
    rw [List.map_eq_nil_iff, List.filter_eq_nil_iff]
    intro pf hpf
    rw [commitSync, alookup_map_entry]
    have hs : (alookup scan pf.1).isSome :=
      alookup_isSome_of_mem_keys (List.mem_map.mpr ⟨pf, hpf, rfl⟩)
    cases hv : alookup scan pf.1 with
    | none => rw [hv] at hs; cases hs
    | some v => simp [hv]
  have hmodified : (diffFingerprintMaps (commitSync snapshot scan) scan).modified = [] := by
    simp only [diffFingerprintMaps]
    rw [List.map_eq_nil_iff, List.filter_eq_nil_iff]
    intro pf hpf
    rw [commitSync, alookup_map_entry, alookup_eq_some_of_mem h hpf]
    cases hl : alookup snapshot pf.1 with
    | none => simp [commitEntry, hl, fingerprintEq_refl]
    | some g =>
      cases he : fingerprintEq g pf.2 with
      | true => simp [commitEntry, hl, he]
      | false => simp [commitEntry, hl, he, fingerprintEq_refl]
  have hremoved : (diffFingerprintMaps (commitSync snapshot scan) scan).removed = [] := by
    simp only [diffFingerprintMaps]
    rw [List.map_eq_nil_iff, List.filter_eq_nil_iff]
    intro pf hpf
    rw [commitSync] at hpf
    rcases List.mem_map.mp hpf with ⟨qf, hqf, hmapped⟩
    have hfst : pf.1 = qf.1 := by cases hmapped; rfl
    have hs : (alookup scan pf.1).isSome := by
      rw [hfst]
      exact alookup_isSome_of_mem_keys (List.mem_map.mpr ⟨qf, hqf, rfl⟩)
    cases hv : alookup scan pf.1 with
    | none => rw [hv] at hs; cases hs
    | some v => simp [hv]
  have hempty := empty_plan_of_fields _ hadded hmodified hremoved
  exact ⟨hempty, by rw [hempty]; rfl⟩

/-- C4 witness: committing the example scan and re-diffing yields the empty
plan and zero chunk mutations. -/
theorem sync_idempotent_witness :
    diffFingerprintMaps (commitSync priorExample freshExample) freshExample
      = ⟨[], [], []⟩ ∧
    mutationCount
      (diffFingerprintMaps (commitSync priorExample freshExample) freshExample) = 0 :=
  sync_idempotent priorExample freshExample (by decide)

/-! ## Reconciliation pipeline and per-file failure atomicity
(modelled from the spec) -/

/-- Modelled from the spec: outcome of reconciling one file once its
store-side operations succeeded.  A removed file (absent from the scan) has
its Snapshot entry deleted; an added or modified file (present in the scan)
has its entry set to the scanned fingerprint.  The FileSynchronizer source
is missing from the corpus. -/
def applyFileOutcome (scan snap : List (String × FileFingerprint)) (f : String) :
    List (String × FileFingerprint) :=
  match alookup scan f with
  | some fp => (snap.filter (fun pf => pf.1 != f)) ++ [(f, fp)]
  | none => snap.filter (fun pf => pf.1 != f)

/-- Result of a reconciliation run: the updated snapshot and the per-file
failure list. -/
structure ReconcileResult where
  snapshot : List (String × FileFingerprint)
  failures : List String
deriving DecidableEq, Repr

/-- Modelled from the spec: the Reconciliation Pipeline processes every file
of the plan; a file whose store-side steps fail is recorded in the failure
list and its Snapshot entry is left untouched, and processing continues with
the remaining files. -/
def reconcileFiles (scan : List (String × FileFingerprint))
    (outcome : String → Bool) (snap : List (String × FileFingerprint)) :
    List String → ReconcileResult
  | [] => ⟨snap, []⟩
  | f :: rest =>
    match outcome f with
    | true => reconcileFiles scan outcome (applyFileOutcome scan snap f) rest
    | false =>
      let r := reconcileFiles scan outcome snap rest
      ⟨r.snapshot, f :: r.failures⟩

/-- Files a SyncPlan schedules for reconciliation. -/
def planFiles (plan : SyncPlan) : List String :=
  plan.added ++ plan.modified ++ plan.removed

/-- Modelled from the spec: reconcile a whole SyncPlan against the prior
snapshot, given the per-file success outcome of the external store-side
steps. -/
def reconcilePlan (snapshot scan : List (String × FileFingerprint))
    (plan : SyncPlan) (outcome : String → Bool) : ReconcileResult :=
  reconcileFiles scan outcome snapshot (planFiles plan)

theorem alookup_append {α : Type} (l1 l2 : List (String × α)) (p : String) :
    alookup (l1 ++ l2) p =
      match alookup l1 p with
      | some v => some v
      | none => alookup l2 p := by
  induction l1 with
  | nil => rfl
  | cons kv rest ih =>
    by_cases he : kv.1 = p
    · simp [alookup, if_pos he]
    · simp only [List.cons_append, alookup, if_neg he]
      exact ih

theorem alookup_filter_ne {α : Type} (m : List (String × α)) (g p : String) :
    alookup (m.filter (fun pf => pf.1 != g)) p =
      if p = g then none else alookup m p := by
  induction m with
  | nil => simp [alookup]
  | cons kv rest ih =>
    by_cases hg : kv.1 = g
    · have hbg : (kv.1 != g) = false := by simp [hg]
      simp only [List.filter_cons, hbg, Bool.false_eq_true, if_false]
      rw [ih]
      by_cases hp : p = g
      · rw [if_pos hp, if_pos hp]
      · rw [if_neg hp, if_neg hp]
        have hne : kv.1 ≠ p := fun he => hp (he ▸ hg)
        simp [alookup, if_neg hne]
    · have hbg : (kv.1 != g) = true := by simp [hg]
      simp only [List.filter_cons, hbg, if_true]
      by_cases he : kv.1 = p
      · have hp : ¬p = g := fun h => hg (he.trans h)
        rw [if_neg hp]
        simp [alookup, if_pos he]
      · simp only [alookup, if_neg he]
        exact ih

theorem alookup_applyFileOutcome (scan snap : List (String × FileFingerprint))
    (g p : String) :
    alookup (applyFileOutcome scan snap g) p =
      if p = g then alookup scan g else alookup snap p := by
  cases hv : alookup scan g with
  | none =>
    simp only [applyFileOutcome, hv]
    rw [alookup_filter_ne]
  | some fp =>
    simp only [applyFileOutcome, hv]
    rw [alookup_append, alookup_filter_ne]
    by_cases hp : p = g
    · subst hp
      simp [alookup, hv]
    · rw [if_neg hp, if_neg hp]
      cases hs : alookup snap p with
      | some v => rfl
      | none =>
        have hgp : g ≠ p := fun h => hp h.symm
        simp [alookup, if_neg hgp]

theorem reconcileFiles_failures (scan : List (String × FileFingerprint))
    (outcome : String → Bool) (files : List String)
    (snap : List (String × FileFingerprint)) :
    (reconcileFiles scan outcome snap files).failures =
      files.filter (fun g => !outcome g) := by
  induction files generalizing snap with
  | nil => rfl
  | cons f rest ih =>
    cases hf : outcome f with
    | true =>
      simp only [reconcileFiles, hf]
      rw [ih, List.filter_cons]
      simp [hf]
    | false =>
      simp only [reconcileFiles, hf]
      rw [List.filter_cons]
      simp [hf, ih]

theorem reconcileFiles_untouched_of_fail (scan : List (String × FileFingerprint))
    (outcome : String → Bool) (files : List String)
    (snap : List (String × FileFingerprint)) (p : String)
    (hp : outcome p = false) :
    alookup (reconcileFiles scan outcome snap files).snapshot p = alookup snap p := by
  induction files generalizing snap with
  | nil => rfl
  | cons f rest ih =>
    cases hf : outcome f with
    | true =>
      simp only [reconcileFiles, hf]
      rw [ih]
      have hne : p ≠ f := fun he => by rw [he, hf] at hp; cases hp
      rw [alookup_applyFileOutcome, if_neg hne]
    | false =>
      simp only [reconcileFiles, hf]
      exact ih snap

theorem reconcileFiles_untouched_of_not_mem (scan : List (String × FileFingerprint))
    (outcome : String → Bool) (files : List String)
    (snap : List (String × FileFingerprint)) (p : String)
    (hp : p ∉ files) :
    alookup (reconcileFiles scan outcome snap files).snapshot p = alookup snap p := by
  induction files generalizing snap with
  | nil => rfl
  | cons f rest ih =>
    have hne : p ≠ f := fun he => hp (he ▸ List.mem_cons_self f rest)
    have hrest : p ∉ rest := fun hm => hp (List.mem_cons_of_mem f hm)
    cases hf : outcome f with
    | true =>
      simp only [reconcileFiles, hf]
      rw [ih _ hrest, alookup_applyFileOutcome, if_neg hne]
    | false =>
      simp only [reconcileFiles, hf]
      exact ih snap hrest

theorem reconcileFiles_processed (scan : List (String × FileFingerprint))
    (outcome : String → Bool) (files : List String)
    (snap : List (String × FileFingerprint)) (g : String)
    (hnd : files.Nodup) (hg : g ∈ files) (hok : outcome g = true) :
    alookup (reconcileFiles scan outcome snap files).snapshot g = alookup scan g := by
  induction files generalizing snap with
  | nil => cases hg
  | cons f rest ih =>
    have hnd2 := List.nodup_cons.mp hnd
    rcases List.mem_cons.mp hg with he | hm
    · subst he
      simp only [reconcileFiles, hok]
      rw [reconcileFiles_untouched_of_not_mem scan outcome rest _ g hnd2.1]
      rw [alookup_applyFileOutcome, if_pos rfl]
    · cases hf : outcome f with
      | true =>
        simp only [reconcileFiles, hf]
        exact ih _ hnd2.2 hm
      | false =>
        simp only [reconcileFiles, hf]
        exact ih snap hnd2.2 hm

/-- C5: per-file failure atomicity of the Reconciliation Pipeline.  For
every plan and every file whose store-side steps fail, that file keeps its
prior Snapshot entry, the failure is recorded in the per-file failure list
(which is exactly the failing files of the plan, so the run is not aborted),
and every other file of the plan whose steps succeed is still processed and
committed. -/
theorem reconcile_failure_atomicity
    (snapshot scan : List (String × FileFingerprint)) (plan : SyncPlan)
    (outcome : String → Bool) (f : String)
    (hnd : (planFiles plan).Nodup)
    (hmem : f ∈ planFiles plan) (hfail : outcome f = false) :
    alookup (reconcilePlan snapshot scan plan outcome).snapshot f
      = alookup snapshot f ∧
    f ∈ (reconcilePlan snapshot scan plan outcome).failures ∧
    (reconcilePlan snapshot scan plan outcome).failures
      = (planFiles plan).filter (fun g => !outcome g) ∧
    (∀ g, g ∈ planFiles plan → outcome g = true →
      alookup (reconcilePlan snapshot scan plan outcome).snapshot g
        = alookup scan g) := by
  refine ⟨?_, ?_, ?_, ?_⟩
  · exact reconcileFiles_untouched_of_fail scan outcome (planFiles plan) snapshot f hfail
  · rw [reconcilePlan, reconcileFiles_failures]
    exact List.mem_filter.mpr ⟨hmem, by simp [hfail]⟩
  · exact reconcileFiles_failures scan outcome (planFiles plan) snapshot
  · intro g hg hok
    exact reconcileFiles_processed scan outcome (planFiles plan) snapshot g hnd hg hok

/-- Example plan used to witness the reconciliation theorem. -/
def planExample : SyncPlan := ⟨["new"], ["mod", "bad"], ["gone"]⟩

/-- Example per-file outcome: every file succeeds except the one named
bad. -/
def outcomeExample : String → Bool := fun g => g != "bad"

/-- C5 witness: the atomicity theorem applied to concrete snapshot, scan,
plan and outcome, with the failing file keeping its snapshot entry while a
succeeding sibling is committed. -/
theorem reconcile_failure_atomicity_witness :
    alookup (reconcilePlan priorExample freshExample planExample outcomeExample).snapshot
        "bad" = alookup priorExample "bad" ∧
    "bad" ∈ (reconcilePlan priorExample freshExample planExample outcomeExample).failures ∧
    (reconcilePlan priorExample freshExample planExample outcomeExample).failures
      = (planFiles planExample).filter (fun g => !outcomeExample g) ∧
    alookup (reconcilePlan priorExample freshExample planExample outcomeExample).snapshot
        "mod" = alookup freshExample "mod" := by
  have h := reconcile_failure_atomicity priorExample freshExample planExample
    outcomeExample "bad" (by decide) (by decide) (by decide)
  exact ⟨h.1, h.2.1, h.2.2.1, h.2.2.2 "mod" (by decide) (by decide)⟩

/-! ## Index-name normalization (AzureAISearchVectorDatabase.normalizeIndexName) -/

/-- ASCII uppercase test, c in the range A to Z. -/
def asciiUpper (c : Char) : Bool :=
  65 ≤ c.toNat && c.toNat ≤ 90

/-- Characters allowed in an Azure AI Search index name: lowercase ASCII
letters, ASCII digits, and the dash. -/
def allowedChar (c : Char) : Bool :=
  (97 ≤ c.toNat && c.toNat ≤ 122) || (48 ≤ c.toNat && c.toNat ≤ 57) || c == '-'

/-- Per-character effect of toLowerCase followed by the regex replacement of
every character outside lowercase letters, digits and dash by a dash
(ASCII lowercasing, as in the source for the names that occur there). -/
def lowerDashChar (c : Char) : Char :=
  if asciiUpper c then Char.ofNat (c.toNat + 32)
  else if allowedChar c then c else '-'

/-- Effect of the regex replacing every run of two or more dashes by a
single dash: every maximal dash run collapses to one dash. -/
def collapseDashes : List Char → List Char
  | [] => []
  | c :: rest =>
    match collapseDashes rest with
    | [] => [c]
    | d :: tail => if c = '-' ∧ d = '-' then d :: tail else c :: d :: tail

/-- Effect of the regex anchor removing one leading dash. -/
def dropLeadingDash : List Char → List Char
  | c :: rest => if c = '-' then rest else c :: rest
  | [] => []

/-- Effect of the regex anchor removing one trailing dash. -/
def dropTrailingDash (l : List Char) : List Char :=
  if l.getLast? = some '-' then l.dropLast else l

/-- Combined effect of the regex removing a leading and a trailing dash. -/
def stripEdgeDashes (l : List Char) : List Char :=
  dropTrailingDash (dropLeadingDash l)

/-- Lowercase, replace disallowed characters by dashes, collapse dash runs,
strip edge dashes: the sanitization shared by normalizeIndexName and the
azure branch of getCollectionName. -/
def sanitizeChars (s : String) : List Char :=
  stripEdgeDashes (collapseDashes (s.data.map lowerDashChar))

/-- AzureAISearchVectorDatabase.normalizeIndexName: lowercase, replace every
character outside lowercase letters, digits and dash by a dash, collapse
consecutive dashes, remove a leading and a trailing dash, then truncate to
128 characters. -/
def normalizeIndexName (collectionName : String) : String :=
  String.mk ((sanitizeChars collectionName).take 128)

/-- No two consecutive dashes occur in the character list. -/
def noDoubleDash : List Char → Bool
  | [] => true
  | [_] => true
  | a :: b :: rest => !(a == '-' && b == '-') && noDoubleDash (b :: rest)

theorem band_true {a b : Bool} (h : (a && b) = true) : a = true ∧ b = true := by
  cases a <;> simp_all

theorem bor_true {a b : Bool} (h : (a || b) = true) : a = true ∨ b = true := by
  cases a <;> simp_all

theorem noDoubleDash_cons_cons {a b : Char} {l : List Char} :
    noDoubleDash (a :: b :: l) =
      (!(a == '-' && b == '-') && noDoubleDash (b :: l)) := rfl

theorem noDoubleDash_tail {a : Char} {l : List Char}
    (h : noDoubleDash (a :: l) = true) : noDoubleDash l = true := by
  cases l with
  | nil => rfl
  | cons b t =>
    rw [noDoubleDash_cons_cons] at h
    exact (band_true h).2

theorem noDoubleDash_no_pair {a b : Char} {l : List Char}
    (h : noDoubleDash (a :: b :: l) = true) : ¬(a = '-' ∧ b = '-') := by
  intro hdd
  rw [noDoubleDash_cons_cons] at h
  have h1 := (band_true h).1
  rw [hdd.1, hdd.2] at h1
  simp at h1

theorem allowedChar_of_interval (n : Nat) (h1 : 65 ≤ n) (h2 : n ≤ 90) :
    allowedChar (Char.ofNat (n + 32)) = true := by
  interval_cases n <;> decide

theorem asciiUpper_bounds {c : Char} (h : asciiUpper c = true) :
    65 ≤ c.toNat ∧ c.toNat ≤ 90 := by
  have hb := band_true ((by simpa [asciiUpper] using h) :
    (decide (65 ≤ c.toNat) && decide (c.toNat ≤ 90)) = true)
  exact ⟨of_decide_eq_true hb.1, of_decide_eq_true hb.2⟩

theorem allowedChar_lowerDashChar (c : Char) :
    allowedChar (lowerDashChar c) = true := by
  rw [lowerDashChar]
  by_cases hu : asciiUpper c = true
  · rw [if_pos hu]
    exact allowedChar_of_interval c.toNat (asciiUpper_bounds hu).1 (asciiUpper_bounds hu).2
  · rw [if_neg hu]
    by_cases ha : allowedChar c = true
    · rw [if_pos ha]; exact ha
    · rw [if_neg ha]; decide

theorem lowerDashChar_fixes {c : Char} (h : allowedChar c = true) :
    lowerDashChar c = c := by
  have hu : ¬asciiUpper c = true := by
    intro hu
    have h1 := (asciiUpper_bounds hu).1
    have h2 := (asciiUpper_bounds hu).2
    rcases bor_true ((by simpa [allowedChar] using h) :
        ((decide (97 ≤ c.toNat) && decide (c.toNat ≤ 122)) ||
          (decide (48 ≤ c.toNat) && decide (c.toNat ≤ 57)) || c == '-') = true)
        with hc | hc
    · rcases bor_true hc with hd | hd
      · have := of_decide_eq_true (band_true hd).1
        omega
      · have := of_decide_eq_true (band_true hd).2
        omega
    · have hcd : c = '-' := eq_of_beq hc
      subst hcd
      have hv : ('-').toNat = 45 := rfl
      omega
  rw [lowerDashChar, if_neg hu, if_pos h]

theorem collapseDashes_cons (c : Char) (rest : List Char) :
    collapseDashes (c :: rest) =
      match collapseDashes rest with
      | [] => [c]
      | d :: tail => if c = '-' ∧ d = '-' then d :: tail else c :: d :: tail := rfl

theorem mem_collapseDashes {x : Char} {l : List Char}
    (h : x ∈ collapseDashes l) : x ∈ l := by
  induction l with
  | nil => cases h
  | cons c rest ih =>
    cases hc : collapseDashes rest with
    | nil =>
      simp only [collapseDashes, hc] at h
      rcases List.mem_singleton.mp h with he
      exact he ▸ List.mem_cons_self c rest
    | cons d tail =>
      simp only [collapseDashes, hc] at h
      by_cases hdd : c = '-' ∧ d = '-'
      · rw [if_pos hdd] at h
        exact List.mem_cons_of_mem c (ih (hc ▸ h))
      · rw [if_neg hdd] at h
        rcases List.mem_cons.mp h with he | hm
        · exact he ▸ List.mem_cons_self c rest
        · exact List.mem_cons_of_mem c (ih (hc ▸ hm))

theorem collapseDashes_head (c : Char) (rest : List Char) :
    (collapseDashes (c :: rest)).head? = some c := by
  cases hc : collapseDashes rest with
  | nil => simp only [collapseDashes, hc]; rfl
  | cons d tail =>
    simp only [collapseDashes, hc]
    by_cases hdd : c = '-' ∧ d = '-'
    · rw [if_pos hdd]
      rw [List.head?_cons, hdd.2, hdd.1]
    · rw [if_neg hdd]
      rfl

theorem noDoubleDash_collapseDashes (l : List Char) :
    noDoubleDash (collapseDashes l) = true := by
  induction l with
  | nil => rfl
  | cons c rest ih =>
    cases hc : collapseDashes rest with
    | nil => simp only [collapseDashes, hc]; rfl
    | cons d tail =>
      simp only [collapseDashes, hc]
      rw [hc] at ih
      by_cases hdd : c = '-' ∧ d = '-'
      · rw [if_pos hdd]
        exact ih
      · rw [if_neg hdd]
        have hb : (c == '-' && d == '-') = false := by
          cases hcc : c == '-' with
          | false => rfl
          | true =>
            cases hdc : d == '-' with
            | false => rfl
            | true => exact absurd ⟨eq_of_beq hcc, eq_of_beq hdc⟩ hdd
        rw [noDoubleDash_cons_cons, hb]
        simpa using ih

theorem collapseDashes_fixes {l : List Char} (h : noDoubleDash l = true) :
    collapseDashes l = l := by
  induction l with
  | nil => rfl
  | cons c rest ih =>
    have hrest := ih (noDoubleDash_tail h)
    cases rest with
    | nil => rfl
    | cons d tail =>
      rw [collapseDashes_cons, hrest]
      show (if c = '-' ∧ d = '-' then d :: tail else c :: d :: tail) = c :: d :: tail
      rw [if_neg (noDoubleDash_no_pair h)]

theorem noDoubleDash_take (l : List Char) :
    ∀ n, noDoubleDash l = true → noDoubleDash (l.take n) = true := by
  induction l with
  | nil => intro n _; rw [List.take_nil]; rfl
  | cons a t ih =>
    intro n h
    cases n with
    | zero => rfl
    | succ m =>
      rw [List.take_succ_cons]
      cases t with
      | nil => rw [List.take_nil]; rfl
      | cons b t2 =>
        cases m with
        | zero => rfl
        | succ k =>
          rw [List.take_succ_cons, noDoubleDash_cons_cons]
          rw [noDoubleDash_cons_cons] at h
          have h2 := band_true h
          rw [h2.1]
          have := ih (k + 1) h2.2
          rw [List.take_succ_cons] at this
          simpa using this

theorem noDoubleDash_dropLast {l : List Char} (h : noDoubleDash l = true) :
    noDoubleDash l.dropLast = true := by
  rw [List.dropLast_eq_take]
  exact noDoubleDash_take l _ h

theorem map_lowerDashChar_fixes {l : List Char}
    (h : ∀ c ∈ l, allowedChar c = true) : l.map lowerDashChar = l := by
  induction l with
  | nil => rfl
  | cons c rest ih =>
    rw [List.map_cons, lowerDashChar_fixes (h c (List.mem_cons_self c rest)),
      ih (fun x hx => h x (List.mem_cons_of_mem c hx))]

theorem dropLeadingDash_of_head_ne {l : List Char}
    (h : l.head? ≠ some '-') : dropLeadingDash l = l := by
  cases l with
  | nil => rfl
  | cons c rest =>
    have hc : ¬c = '-' := fun he => h (by rw [List.head?_cons, he])
    rw [dropLeadingDash, if_neg hc]

theorem dropTrailingDash_of_getLast_ne {l : List Char}
    (h : l.getLast? ≠ some '-') : dropTrailingDash l = l := by
  rw [dropTrailingDash, if_neg h]

theorem head_dropLeadingDash {l : List Char} (h : noDoubleDash l = true) :
    (dropLeadingDash l).head? ≠ some '-' := by
  cases l with
  | nil => rw [dropLeadingDash]; intro hc; cases hc
  | cons c rest =>
    by_cases hc : c = '-'
    · rw [dropLeadingDash, if_pos hc]
      cases rest with
      | nil => intro hx; cases hx
      | cons d tail =>
        intro hx
        have hd : d = '-' := by
          rw [List.head?_cons] at hx
          cases hx
          rfl
        exact noDoubleDash_no_pair h ⟨hc, hd⟩
    · rw [dropLeadingDash, if_neg hc]
      intro hx
      rw [List.head?_cons] at hx
      cases hx
      exact hc rfl

theorem head_dropLast_cases (l : List Char) :
    l.dropLast.head? = none ∨ l.dropLast.head? = l.head? := by
  cases l with
  | nil => left; rfl
  | cons a t =>
    cases t with
    | nil => left; rfl
    | cons b t2 =>
      right
      rw [List.dropLast_cons₂, List.head?_cons, List.head?_cons]

theorem head_dropTrailingDash {l : List Char} (h : l.head? ≠ some '-') :
    (dropTrailingDash l).head? ≠ some '-' := by
  rw [dropTrailingDash]
  by_cases hg : l.getLast? = some '-'
  · rw [if_pos hg]
    rcases head_dropLast_cases l with hd | hd
    · rw [hd]; intro hx; cases hx
    · rw [hd]; exact h
  · rw [if_neg hg]; exact h

theorem head_take_ne {l : List Char} {n : Nat} (h : l.head? ≠ some '-') :
    (l.take n).head? ≠ some '-' := by
  rw [List.head?_take]
  by_cases hn : n = 0
  · rw [if_pos hn]; intro hx; cases hx
  · rw [if_neg hn]; exact h

theorem sanitizeChars_allowed (s : String) :
    ∀ c ∈ sanitizeChars s, allowedChar c = true := by
  intro c hc
  rw [sanitizeChars, stripEdgeDashes] at hc
  have h1 : c ∈ dropLeadingDash (collapseDashes (s.data.map lowerDashChar)) := by
    rw [dropTrailingDash] at hc
    by_cases hg : (dropLeadingDash (collapseDashes (s.data.map lowerDashChar))).getLast?
        = some '-'
    · rw [if_pos hg] at hc
      exact List.dropLast_subset _ hc
    · rw [if_neg hg] at hc
      exact hc
  have h2 : c ∈ collapseDashes (s.data.map lowerDashChar) := by
    cases hl : collapseDashes (s.data.map lowerDashChar) with
    | nil =>
      rw [hl] at h1
      rw [dropLeadingDash] at h1
      cases h1
    | cons d tail =>
      rw [hl] at h1
      by_cases hd : d = '-'
      · rw [dropLeadingDash, if_pos hd] at h1
        exact List.mem_cons_of_mem d h1
      · rw [dropLeadingDash, if_neg hd] at h1
        exact h1
  have h3 : c ∈ s.data.map lowerDashChar := mem_collapseDashes h2
  rcases List.mem_map.mp h3 with ⟨x, _, hx⟩
  rw [← hx]
  exact allowedChar_lowerDashChar x

theorem sanitizeChars_noDoubleDash (s : String) :
    noDoubleDash (sanitizeChars s) = true := by
  rw [sanitizeChars, stripEdgeDashes]
  have h1 : noDoubleDash (dropLeadingDash (collapseDashes (s.data.map lowerDashChar)))
      = true := by
    cases hl : collapseDashes (s.data.map lowerDashChar) with
    | nil => rfl
    | cons d tail =>
      have hnd : noDoubleDash (d :: tail) = true := by
        rw [← hl]; exact noDoubleDash_collapseDashes _
      by_cases hd : d = '-'
      · rw [dropLeadingDash, if_pos hd]
        exact noDoubleDash_tail hnd
      · rw [dropLeadingDash, if_neg hd]
        exact hnd
  rw [dropTrailingDash]
  by_cases hg : (dropLeadingDash (collapseDashes (s.data.map lowerDashChar))).getLast?
      = some '-'
  · rw [if_pos hg]
    exact noDoubleDash_dropLast h1
  · rw [if_neg hg]
    exact h1

theorem sanitizeChars_head (s : String) :
    (sanitizeChars s).head? ≠ some '-' := by
  rw [sanitizeChars, stripEdgeDashes]
  refine head_dropTrailingDash (head_dropLeadingDash ?_)
  exact noDoubleDash_collapseDashes _

/-- C9 amended: for every input string, normalizeIndexName returns only
lowercase letters, digits and dashes, contains no two consecutive dashes,
never starts with a dash, and has length at most 128; and on every input
whose result does not end with a dash (in particular whenever the
128-character truncation did not cut the name at a dash) the function is
idempotent. -/
theorem normalizeIndexName_spec (s : String) :
    (∀ c ∈ (normalizeIndexName s).data, allowedChar c = true) ∧
    noDoubleDash (normalizeIndexName s).data = true ∧
    (normalizeIndexName s).data.head? ≠ some '-' ∧
    (normalizeIndexName s).length ≤ 128 ∧
    ((normalizeIndexName s).data.getLast? ≠ some '-' →
      normalizeIndexName (normalizeIndexName s) = normalizeIndexName s) := by
  have hdata : (normalizeIndexName s).data = (sanitizeChars s).take 128 := rfl
  have hallow : ∀ c ∈ (normalizeIndexName s).data, allowedChar c = true := by
    intro c hc
    rw [hdata] at hc
    exact sanitizeChars_allowed s c (List.take_subset _ _ hc)
  have hnd : noDoubleDash (normalizeIndexName s).data = true := by
    rw [hdata]
    exact noDoubleDash_take _ _ (sanitizeChars_noDoubleDash s)
  have hhead : (normalizeIndexName s).data.head? ≠ some '-' := by
    rw [hdata]
    exact head_take_ne (sanitizeChars_head s)
  refine ⟨hallow, hnd, hhead, ?_, ?_⟩
  · show (normalizeIndexName s).data.length ≤ 128
    rw [hdata, List.length_take]
    exact min_le_left _ _
  · intro hlast
    have hlen : (normalizeIndexName s).data.length ≤ 128 := by
      rw [hdata, List.length_take]
      exact min_le_left _ _
    rw [normalizeIndexName, sanitizeChars,
      map_lowerDashChar_fixes hallow,
      collapseDashes_fixes hnd,
      stripEdgeDashes,
      dropLeadingDash_of_head_ne hhead,
      dropTrailingDash_of_getLast_ne hlast,
      List.take_of_length_le hlen]

/-- C9 witness: the amended normalization theorem applied to a concrete
name whose result does not end with a dash, giving idempotence there. -/
theorem normalizeIndexName_spec_witness :
    (normalizeIndexName "My Project (v2)").data.getLast? ≠ some '-' ∧
    normalizeIndexName (normalizeIndexName "My Project (v2)")
      = normalizeIndexName "My Project (v2)" :=
  ⟨by decide, (normalizeIndexName_spec "My Project (v2)").2.2.2.2 (by decide)⟩

/-- C9 input exhibiting the truncation corner case: 127 copies of the
letter a, then a dash, then the letter b. -/
def truncationEdgeName : String :=
  String.mk (List.replicate 127 'a' ++ ['-', 'b'])

/-- C9 counterexample: on a 129-character input the 128-character truncation
cuts the name directly after a dash, so the result ends with a dash and
normalizeIndexName is not idempotent on it, contrary to the claim. -/
theorem normalizeIndexName_counterexample :
    (normalizeIndexName truncationEdgeName).data.getLast? = some '-' ∧
    normalizeIndexName (normalizeIndexName truncationEdgeName)
      ≠ normalizeIndexName truncationEdgeName := by
  constructor
  · decide
  · decide

/-! ## MD5 over byte lists, as used via the node crypto module by
Context.getCollectionName (hex digest of the resolved path). -/

/-- Reduction modulo 2 to the 32, the word size of the MD5 state. -/
def m32 (n : Nat) : Nat := n % 4294967296

/-- Left rotation of a 32-bit word by s bits. -/
def rotl32 (x s : Nat) : Nat := (x * 2 ^ s) % 4294967296 + x / 2 ^ (32 - s)

/-- Bitwise complement of a 32-bit word. -/
def md5Not (x : Nat) : Nat := 4294967295 - x

/-- The 64 MD5 round constants, floor of the absolute sine table. -/
def md5K : List Nat :=
  [0xd76aa478, 0xe8c7b756, 0x242070db, 0xc1bdceee,
   0xf57c0faf, 0x4787c62a, 0xa8304613, 0xfd469501,
   0x698098d8, 0x8b44f7af, 0xffff5bb1, 0x895cd7be,
   0x6b901122, 0xfd987193, 0xa679438e, 0x49b40821,
   0xf61e2562, 0xc040b340, 0x265e5a51, 0xe9b6c7aa,
   0xd62f105d, 0x02441453, 0xd8a1e681, 0xe7d3fbc8,
   0x21e1cde6, 0xc33707d6, 0xf4d50d87, 0x455a14ed,
   0xa9e3e905, 0xfcefa3f8, 0x676f02d9, 0x8d2a4c8a,
   0xfffa3942, 0x8771f681, 0x6d9d6122, 0xfde5380c,
   0xa4beea44, 0x4bdecfa9, 0xf6bb4b60, 0xbebfbc70,
   0x289b7ec6, 0xeaa127fa, 0xd4ef3085, 0x04881d05,
   0xd9d4d039, 0xe6db99e5, 0x1fa27cf8, 0xc4ac5665,
   0xf4292244, 0x432aff97, 0xab9423a7, 0xfc93a039,
   0x655b59c3, 0x8f0ccc92, 0xffeff47d, 0x85845dd1,
   0x6fa87e4f, 0xfe2ce6e0, 0xa3014314, 0x4e0811a1,
   0xf7537e82, 0xbd3af235, 0x2ad7d2bb, 0xeb86d391]

/-- The 64 MD5 per-round shift amounts. -/
def md5Shift : List Nat :=
  [7, 12, 17, 22, 7, 12, 17, 22, 7, 12, 17, 22, 7, 12, 17, 22,
   5, 9, 14, 20, 5, 9, 14, 20, 5, 9, 14, 20, 5, 9, 14, 20,
   4, 11, 16, 23, 4, 11, 16, 23, 4, 11, 16, 23, 4, 11, 16, 23,
   6, 10, 15, 21, 6, 10, 15, 21, 6, 10, 15, 21, 6, 10, 15, 21]

/-- The MD5 round function, by round quarter. -/
def md5F (i b c d : Nat) : Nat :=
  if i < 16 then (b &&& c) ||| (md5Not b &&& d)
  else if i < 32 then (d &&& b) ||| (md5Not d &&& c)
  else if i < 48 then b ^^^ c ^^^ d
  else c ^^^ (b ||| md5Not d)

/-- The MD5 message-word index, by round quarter. -/
def md5G (i : Nat) : Nat :=
  if i < 16 then i
  else if i < 32 then (5 * i + 1) % 16
  else if i < 48 then (3 * i + 5) % 16
  else (7 * i) % 16

/-- One MD5 round on the four-word state. -/
def md5Step (M : List Nat) (st : Nat × Nat × Nat × Nat) (i : Nat) :
    Nat × Nat × Nat × Nat :=
  let f := m32 (md5F i st.2.1 st.2.2.1 st.2.2.2 + st.1
    + md5K.getD i 0 + M.getD (md5G i) 0)
  (st.2.2.2, m32 (st.2.1 + rotl32 f (md5Shift.getD i 0)), st.2.1, st.2.2.1)

/-- Process one 16-word message block. -/
def md5ProcessBlock (st : Nat × Nat × Nat × Nat) (M : List Nat) :
    Nat × Nat × Nat × Nat :=
  let r := (List.range 64).foldl (md5Step M) st
  (m32 (st.1 + r.1), m32 (st.2.1 + r.2.1), m32 (st.2.2.1 + r.2.2.1),
    m32 (st.2.2.2 + r.2.2.2))

/-- Little-endian conversion of bytes to 32-bit words. -/
def toWordsLE : List Nat → List Nat
  | b0 :: b1 :: b2 :: b3 :: rest =>
    (b0 + 256 * b1 + 65536 * b2 + 16777216 * b3) :: toWordsLE rest
  | _ => []

/-- Split a byte list into n blocks of 64 bytes. -/
def chunkBlocksAux : Nat → List Nat → List (List Nat)
  | 0, _ => []
  | n + 1, l => l.take 64 :: chunkBlocksAux n (l.drop 64)

/-- The 8 little-endian bytes of the bit length, for MD5 padding. -/
def md5LenBytes (bitLen : Nat) : List Nat :=
  [bitLen % 256, bitLen / 256 % 256, bitLen / 65536 % 256,
   bitLen / 16777216 % 256, bitLen / 4294967296 % 256,
   bitLen / 1099511627776 % 256, bitLen / 281474976710656 % 256,
   bitLen / 72057594037927936 % 256]

/-- MD5 padding: a one bit, zeros to 56 mod 64 bytes, then the bit
length. -/
def md5Pad (bytes : List Nat) : List Nat :=
  bytes ++ [128] ++ List.replicate ((119 - bytes.length % 64) % 64) 0
    ++ md5LenBytes (8 * bytes.length)

/-- Lowercase hexadecimal digit. -/
def hexDigit (n : Nat) : Char :=
  if n < 10 then Char.ofNat (48 + n) else Char.ofNat (87 + n)

/-- Two lowercase hexadecimal digits of one byte. -/
def byteHex (b : Nat) : List Char := [hexDigit (b / 16), hexDigit (b % 16)]

/-- Hexadecimal rendering of one state word, least significant byte
first, as in an MD5 digest. -/
def wordHexLE (w : Nat) : List Char :=
  byteHex (w % 256) ++ byteHex (w / 256 % 256) ++ byteHex (w / 65536 % 256)
    ++ byteHex (w / 16777216 % 256)

/-- MD5 hex digest of a string, over its character codes (identical to the
UTF-8 byte digest for the ASCII paths considered here), as produced by
createHash applied to md5 with a hex digest in the source. -/
def md5Hex (s : String) : String :=
  let padded := md5Pad (s.data.map Char.toNat)
  let blocks := chunkBlocksAux (padded.length / 64) padded
  let r := blocks.foldl (fun st block => md5ProcessBlock st (toWordsLE block))
    (0x67452301, 0xefcdab89, 0x98badcfe, 0x10325476)
  String.mk (wordHexLE r.1 ++ wordHexLE r.2.1 ++ wordHexLE r.2.2.1
    ++ wordHexLE r.2.2.2)

set_option maxRecDepth 100000 in
/-- Sanity anchor: the RFC 1321 test vector for the string abc. -/
theorem md5Hex_abc : md5Hex "abc" = "900150983cd24fb0d6963f7d28e17f72" := by
  decide

/-! ## Context.getCollectionName and codebase identity -/

/-- The vector-database backend kinds of the ContextConfig union type. -/
inductive VectorDbType
  | postgres
  | milvus
  | azure
  | zilliz
deriving DecidableEq, Repr

/-- Fixed environment of a Context: the filesystem resolution performed by
path.resolve, the HYBRID_MODE setting read by getIsHybrid, and the selected
backend kind. -/
structure ContextEnv where
  resolve : String → String
  isHybrid : Bool
  vectorDbType : VectorDbType

/-- Split a character list at every slash. -/
def splitSlash : List Char → List (List Char)
  | [] => [[]]
  | c :: rest =>
    match splitSlash rest with
    | comp :: comps =>
      if c = '/' then [] :: comp :: comps else (c :: comp) :: comps
    | [] => [[]]

/-- Last non-empty slash-separated component, as path.basename returns it
for the resolved paths at hand. -/
def basename (p : String) : String :=
  match ((splitSlash p.data).reverse).find? (fun comp => comp != []) with
  | some comp => String.mk comp
  | none => p

/-- Strip one trailing dash of a string, the effect of the trailing-dash
regex replacement applied after truncation. -/
def dropOneTrailingDash (s : String) : String :=
  String.mk (dropTrailingDash s.data)

/-- Context.getCollectionName on an already resolved path: in azure mode
the sanitized basename, the hybrid suffix and the first 8 digest
characters, truncated to 127 characters with a trailing dash stripped when
longer than 128; otherwise the fixed prefix with the full digest and the
hybrid suffix. -/
def collectionNameOfResolved (env : ContextEnv) (normalizedPath : String) : String :=
  let hash := md5Hex normalizedPath
  let baseName := basename normalizedPath
  if env.vectorDbType = VectorDbType.azure then
    let azureSafeName := String.mk (sanitizeChars baseName)
    let suffix := if env.isHybrid then "-hybrid" else ""
    let shortHash := hash.take 8
    let collectionName := azureSafeName ++ suffix ++ "-" ++ shortHash
    if collectionName.length > 128 then
      dropOneTrailingDash (collectionName.take 127)
    else collectionName
  else
    "claude_context_" ++ hash ++ (if env.isHybrid then "_hybrid" else "")

/-- Context.getCollectionName: resolve the codebase path, then derive the
collection name from the resolved path alone. -/
def getCollectionName (env : ContextEnv) (codebasePath : String) : String :=
  collectionNameOfResolved env (env.resolve codebasePath)

/-- C6 amended: the collection name is a pure function of the resolved
absolute root path under a fixed environment, so any two codebase path
strings resolving to the same absolute path receive the same collection
name; distinct resolved paths may nevertheless collide. -/
theorem getCollectionName_of_resolve {env : ContextEnv} {p1 p2 : String}
    (h : env.resolve p1 = env.resolve p2) :
    getCollectionName env p1 = getCollectionName env p2 :=
  congrArg (collectionNameOfResolved env) h

/-- Concrete environment resolving every path to one project root. -/
def envSameRoot : ContextEnv :=
  ⟨fun _ => "/repo/proj", true, VectorDbType.azure⟩

/-- C6 witness: two different path spellings of the same root receive the
same collection name. -/
theorem getCollectionName_of_resolve_witness :
    getCollectionName envSameRoot "/repo/proj" = getCollectionName envSameRoot "./proj" :=
  getCollectionName_of_resolve rfl

/-- Azure-mode environment on already absolute paths. -/
def envAzureId : ContextEnv := ⟨fun s => s, true, VectorDbType.azure⟩

/-- First colliding absolute path: directory a, 127-character basename. -/
def longPathA : String := String.mk ('/' :: 'a' :: '/' :: List.replicate 127 'x')

/-- Second colliding absolute path: directory b, same 127-character
basename. -/
def longPathB : String := String.mk ('/' :: 'b' :: '/' :: List.replicate 127 'x')

set_option maxRecDepth 1000000 in
/-- C6 counterexample: two distinct resolved absolute paths whose sanitized
basenames fill the 127-character truncation window receive the same
collection name, because the truncation cuts off the distinguishing hash
suffix; so distinct resolved paths do not always get distinct names. -/
theorem getCollectionName_counterexample :
    envAzureId.resolve longPathA ≠ envAzureId.resolve longPathB ∧
    getCollectionName envAzureId longPathA = getCollectionName envAzureId longPathB := by
  constructor
  · decide
  · decide

/-! ## AzureAISearchVectorDatabase.hasCollection -/

/-- Error value thrown by the Azure backend, carrying an optional HTTP
status code, as inspected by the catch clause of hasCollection. -/
structure AzureBackendError where
  statusCode : Option Nat
deriving DecidableEq, Repr

/-- AzureAISearchVectorDatabase.hasCollection: call getIndex on the
normalized name, return true on success, false when the error carries the
status code 404, and rethrow every other error. -/
def hasCollection (getIndex : String → Except AzureBackendError Unit)
    (collectionName : String) : Except AzureBackendError Bool :=
  match getIndex (normalizeIndexName collectionName) with
  | Except.ok _ => Except.ok true
  | Except.error e =>
    if e.statusCode = some 404 then Except.ok false else Except.error e

/-- C7: hasCollection is a total boolean existence test: it returns true
when the backend retrieves the index for the normalized name, returns false
when the backend reports status code 404, and propagates every other
backend error instead of returning a boolean. -/
theorem hasCollection_spec (getIndex : String → Except AzureBackendError Unit)
    (name : String) :
    (getIndex (normalizeIndexName name) = Except.ok () →
      hasCollection getIndex name = Except.ok true) ∧
    (∀ e, getIndex (normalizeIndexName name) = Except.error e →
      e.statusCode = some 404 → hasCollection getIndex name = Except.ok false) ∧
    (∀ e, getIndex (normalizeIndexName name) = Except.error e →
      e.statusCode ≠ some 404 → hasCollection getIndex name = Except.error e) := by
  refine ⟨?_, ?_, ?_⟩
  · intro h
    simp only [hasCollection, h]
  · intro e he h404
    simp only [hasCollection, he]
    rw [if_pos h404]
  · intro e he h404
    simp only [hasCollection, he]
    rw [if_neg h404]

/-- Concrete backend with one existing index, one missing index reported
with 404, and a failing backend otherwise. -/
def getIndexExample : String → Except AzureBackendError Unit := fun n =>
  if n = "code-embeddings" then Except.ok ()
  else if n = "gone-index" then Except.error ⟨some 404⟩
  else Except.error ⟨some 503⟩

/-- C7 witness: the three branches of the hasCollection contract at
concrete collection names against the concrete backend. -/
theorem hasCollection_spec_witness :
    hasCollection getIndexExample "Code_Embeddings" = Except.ok true ∧
    hasCollection getIndexExample "gone-index" = Except.ok false ∧
    hasCollection getIndexExample "other" = Except.error ⟨some 503⟩ := by
  have h1 := hasCollection_spec getIndexExample "Code_Embeddings"
  have h2 := hasCollection_spec getIndexExample "gone-index"
  have h3 := hasCollection_spec getIndexExample "other"
  exact ⟨h1.1 rfl, h2.2.1 ⟨some 404⟩ rfl rfl, h3.2.2 ⟨some 503⟩ rfl (by decide)⟩

/-! ## Context.detectVectorDbType and backend selection -/

/-- ASCII lowercasing of one character, the per-character effect of
toLowerCase on the constructor names at hand. -/
def asciiLowerChar (c : Char) : Char :=
  if asciiUpper c then Char.ofNat (c.toNat + 32) else c

/-- ASCII lowercasing of a string. -/
def toLowerAscii (s : String) : String :=
  String.mk (s.data.map asciiLowerChar)

/-- Whether the first list is an initial segment of the second. -/
def listStartsWith : List Char → List Char → Bool
  | [], _ => true
  | _ :: _, [] => false
  | p :: ps, c :: cs => p == c && listStartsWith ps cs

/-- Whether the pattern occurs contiguously inside the list, the effect of
the string includes test. -/
def listContainsSub (pat : List Char) : List Char → Bool
  | [] => pat.isEmpty
  | c :: cs => listStartsWith pat (c :: cs) || listContainsSub pat cs

/-- Whether the lowercased subject contains the pattern, as the chained
toLowerCase and includes calls do. -/
def containsLower (s pat : String) : Bool :=
  listContainsSub pat.data (toLowerAscii s).data

/-- Context.detectVectorDbType: inspect the constructor name of the
instance, lowercase it, and pick the first matching backend substring,
defaulting to postgres. -/
def detectVectorDbType (constructorName : String) : VectorDbType :=
  if containsLower constructorName "azure" then VectorDbType.azure
  else if containsLower constructorName "postgres" then VectorDbType.postgres
  else if containsLower constructorName "zilliz" then VectorDbType.zilliz
  else if containsLower constructorName "milvus" then VectorDbType.milvus
  else VectorDbType.postgres

/-- The vectorDbType initialization of the Context constructor: the
explicit config field when present, otherwise the type inferred from the
constructor name of the passed instance. -/
def selectVectorDbType (configType : Option VectorDbType)
    (constructorName : String) : VectorDbType :=
  match configType with
  | some t => t
  | none => detectVectorDbType constructorName

/-- C8 amended: the explicit config field, when present, alone determines
vectorDbType; but when the field is absent the constructor falls back to
runtime type inspection, choosing the backend kind by the first of the
substrings azure, postgres, zilliz, milvus found in the lowercased
constructor name of the instance, and postgres when none matches. -/
theorem vectorDbType_selection (t : VectorDbType) (name : String) :
    selectVectorDbType (some t) name = t ∧
    (containsLower name "azure" = true →
      selectVectorDbType none name = VectorDbType.azure) ∧
    (containsLower name "azure" = false →
      containsLower name "postgres" = true →
      selectVectorDbType none name = VectorDbType.postgres) ∧
    (containsLower name "azure" = false →
      containsLower name "postgres" = false →
      containsLower name "zilliz" = true →
      selectVectorDbType none name = VectorDbType.zilliz) ∧
    (containsLower name "azure" = false →
      containsLower name "postgres" = false →
      containsLower name "zilliz" = false →
      containsLower name "milvus" = true →
      selectVectorDbType none name = VectorDbType.milvus) ∧
    (containsLower name "azure" = false →
      containsLower name "postgres" = false →
      containsLower name "zilliz" = false →
      containsLower name "milvus" = false →
      selectVectorDbType none name = VectorDbType.postgres) := by
  refine ⟨rfl, ?_, ?_, ?_, ?_, ?_⟩ <;>
    intros <;> simp_all [selectVectorDbType, detectVectorDbType]

/-- C8 witness: an explicit config field overrides the runtime name, and
with the field absent the azure substring decides. -/
theorem vectorDbType_selection_witness :
    selectVectorDbType (some VectorDbType.zilliz) "AzureAISearchVectorDatabase"
      = VectorDbType.zilliz ∧
    selectVectorDbType none "AzureAISearchVectorDatabase" = VectorDbType.azure := by
  have h := vectorDbType_selection VectorDbType.zilliz "AzureAISearchVectorDatabase"
  exact ⟨h.1, h.2.1 (by decide)⟩

/-- C8 counterexample: with the config field absent, the resulting
vectorDbType differs between two instances distinguished only by their
runtime constructor names, so the type is not determined by the explicit
config field alone. -/
theorem vectorDbType_inference_counterexample :
    selectVectorDbType none "AzureAISearchVectorDatabase" = VectorDbType.azure ∧
    selectVectorDbType none "MilvusRestfulVectorDatabase" = VectorDbType.milvus ∧
    VectorDbType.azure ≠ VectorDbType.milvus := by
  refine ⟨?_, ?_, ?_⟩ <;> decide

/-! ## AzureAISearchVectorDatabase.search result processing -/

/-- Document fields selected by the search request and read back from a
hit. -/
structure AzureDocFields where
  id : String
  content : String
  relativePath : String
  startLine : Int
  endLine : Int
  fileExtension : String
  metadata : String
deriving DecidableEq, Repr

/-- One backend hit: an optional document and an optional score, as the
result iterator presents them. -/
structure SearchHit where
  document : Option AzureDocFields
  score : Option Rat
deriving DecidableEq, Repr

/-- The SearchOptions consumed by search: optional topK, optional score
threshold, optional filter expression (the filter is forwarded to the
backend request and does not affect result processing here). -/
structure SearchOpts where
  topK : Option Nat
  threshold : Option Rat
  filterExpr : Option String
deriving DecidableEq, Repr

/-- The effective topK: the option when present and non-zero, else 10, the
JS disjunction with the default. -/
def effectiveTopK (opts : SearchOpts) : Nat :=
  match opts.topK with
  | some k => if k = 0 then 10 else k
  | none => 10

/-- The kNearestNeighborsCount and top values search places into the
backend request, both equal to the effective topK. -/
def searchRequestTop (opts : SearchOpts) : Nat :=
  effectiveTopK opts

/-- Score of a hit, zero when absent, the JS disjunction with zero. -/
def searchScore (h : SearchHit) : Rat :=
  h.score.getD 0

/-- The result loop of AzureAISearchVectorDatabase.search: skip hits
without a document, skip hits below a non-zero threshold, and collect the
document with its score. -/
def processSearchResults (opts : SearchOpts) (hits : List SearchHit) :
    List (AzureDocFields × Rat) :=
  hits.filterMap (fun h =>
    match h.document with
    | none => none
    | some d =>
      match opts.threshold with
      | some t =>
        if t ≠ 0 ∧ searchScore h < t then none else some (d, searchScore h)
      | none => some (d, searchScore h))

/-- C10: search returns at most topK results (10 when topK is absent,
given that the backend honors the requested top), every returned result
meets a supplied positive threshold, and every result stems from a hit
that carried a document (hits without a document are omitted). -/
theorem azure_search_spec (opts : SearchOpts) (hits : List SearchHit)
    (hlen : hits.length ≤ searchRequestTop opts) :
    (processSearchResults opts hits).length ≤ effectiveTopK opts ∧
    (opts.topK = none → effectiveTopK opts = 10) ∧
    (∀ t, opts.threshold = some t → 0 < t →
      ∀ r ∈ processSearchResults opts hits, t ≤ r.2) ∧
    (∀ r ∈ processSearchResults opts hits,
      ∃ hit ∈ hits, hit.document = some r.1) := by
  refine ⟨?_, ?_, ?_, ?_⟩
  · exact le_trans (List.length_filterMap_le _ _) hlen
  · intro h
    simp [effectiveTopK, h]
  · intro t ht hpos r hr
    rcases List.mem_filterMap.mp hr with ⟨hit, hmem, hf⟩
    cases hd : hit.document with
    | none => simp only [hd] at hf; cases hf
    | some d =>
      simp only [hd, ht] at hf
      by_cases hc : t ≠ 0 ∧ searchScore hit < t
      · rw [if_pos hc] at hf; cases hf
      · rw [if_neg hc] at hf
        cases hf
        rcases not_and_or.mp hc with h0 | hlt
        · exact absurd (not_not.mp h0) (ne_of_gt hpos)
        · exact le_of_not_lt hlt
  · intro r hr
    rcases List.mem_filterMap.mp hr with ⟨hit, hmem, hf⟩
    cases hd : hit.document with
    | none => simp only [hd] at hf; cases hf
    | some d =>
      refine ⟨hit, hmem, ?_⟩
      cases ht : opts.threshold with
      | none =>
        simp only [hd, ht] at hf
        cases hf
        exact hd
      | some t =>
        simp only [hd, ht] at hf
        by_cases hc : t ≠ 0 ∧ searchScore hit < t
        · rw [if_pos hc] at hf; cases hf
        · rw [if_neg hc] at hf
          cases hf
          exact hd

/-- First example document returned by the backend. -/
def docAbove : AzureDocFields := ⟨"id1", "chunk one", "src/a.ts", 1, 10, "ts", ""⟩

/-- Second example document, scored below the threshold. -/
def docBelow : AzureDocFields := ⟨"id2", "chunk two", "src/b.ts", 5, 20, "ts", ""⟩

/-- Example backend hits: a scoring document, a hit with no document, and a
document below the threshold. -/
def hitsExample : List SearchHit :=
  [⟨some docAbove, some 2⟩, ⟨none, some 3⟩, ⟨some docBelow, some 0⟩]

/-- Example search options: topK 3, threshold 1, no filter. -/
def optsExample : SearchOpts := ⟨some 3, some 1, none⟩

/-- C10 witness: the search theorem at concrete options and hits, with the
length bound, a threshold-passing result and its originating hit. -/
theorem azure_search_spec_witness :
    (processSearchResults optsExample hitsExample).length
      ≤ effectiveTopK optsExample ∧
    (1 : Rat) ≤ (docAbove, (2 : Rat)).2 ∧
    ∃ hit ∈ hitsExample, SearchHit.document hit = some docAbove := by
  have h := azure_search_spec optsExample hitsExample (by decide)
  refine ⟨h.1, ?_, ?_⟩
  · exact h.2.2.1 1 rfl (by decide) (docAbove, 2) (by decide)
  · exact h.2.2.2 (docAbove, 2) (by decide)

end ClaudeContext
